import Mathlib

/-!
Shallow embedding of `vanilla_installer/utils/processor.py` (the recipe
generator of the Vanilla OS installer).

Conventions of the embedding:
* Python values that appear in step parameter lists are modelled by `PyVal`
  (strings, ints, floats as exact rationals, booleans, `None`, and lists of
  strings — the only nested lists the code ever builds are lists of strings).
* Exceptions (`assert`, `AttributeError` after `del`) are modelled with
  `Except String`.
* Boundary collaborators are parameters: `Systeminfo.is_uefi()` becomes the
  `isUefi : Bool` argument, the `VANILLA_SKIP_POSTINSTALL` environment toggle
  becomes `skipPostinstall : Bool`, and
  `Diskutils.separate_device_and_partn` becomes a function argument `sep`.
* File writes to `/tmp` (GRUB templates, systemd unit contents, abimage) and
  the final JSON serialisation are I/O at the boundary; only the recipe data
  the planner assembles is modelled.
-/

/-- A Python value as it occurs in a step's parameter list. Floats are
represented as exact rationals (no claim depends on binary rounding; the only
float the code produces is `size / 1_048_576 - 1024 - 512 - 1028`). -/
inductive PyVal where
  | str (s : String)
  | int (n : Int)
  | rat (q : ℚ)
  | bool (b : Bool)
  | none
  | strList (xs : List String)
deriving DecidableEq, Repr

/-- One entry of `AlbiusRecipe.setup`: `{"disk": .., "operation": .., "params": ..}`. -/
structure SetupStep where
  disk : String
  operation : String
  params : List PyVal
deriving DecidableEq, Repr

/-- One entry of `AlbiusRecipe.mountpoints`: `{"partition": .., "target": ..}`. -/
structure Mountpoint where
  partition : String
  target : String
deriving DecidableEq, Repr

/-- The `AlbiusRecipe.installation` dict set by `set_installation`. -/
structure Installation where
  method : String
  source : String
  initramfsPre : List String
  initramfsPost : List String
deriving DecidableEq, Repr

/-- One entry of `postInstallation` / `latePostInstallation`. -/
structure PostInstallStep where
  chroot : Bool
  operation : String
  params : List PyVal
deriving DecidableEq, Repr

/-- The `AlbiusRecipe` accumulator.  `latePostInstallation = Option.none`
models the state after `merge_postinstall_steps` has executed
`del self.latePostInstallation` (accessing the attribute then raises
`AttributeError`). -/
structure AlbiusRecipe where
  setup : List SetupStep
  mountpoints : List Mountpoint
  installation : Option Installation
  postInstallation : List PostInstallStep
  latePostInstallation : Option (List PostInstallStep)
deriving DecidableEq, Repr

/-- `AlbiusRecipe.__init__`. -/
def AlbiusRecipe.new : AlbiusRecipe :=
  ⟨[], [], Option.none, [], some []⟩

def AlbiusRecipe.add_setup_step (r : AlbiusRecipe) (disk operation : String)
    (params : List PyVal) : AlbiusRecipe :=
  { r with setup := r.setup ++ [⟨disk, operation, params⟩] }

def AlbiusRecipe.add_mountpoint (r : AlbiusRecipe) (partition target : String) :
    AlbiusRecipe :=
  { r with mountpoints := r.mountpoints ++ [⟨partition, target⟩] }

def AlbiusRecipe.set_installation (r : AlbiusRecipe) (method source : String) :
    AlbiusRecipe :=
  { r with installation := some ⟨method, source, ["lpkg --unlock"], ["lpkg --lock"]⟩ }

/-- `add_postinstall_step(operation, params, chroot=False, late=False)`.
Appending to the late bucket after `merge_postinstall_steps` deleted it raises
`AttributeError` in Python, modelled as an error. -/
def AlbiusRecipe.add_postinstall_step (r : AlbiusRecipe) (operation : String)
    (params : List PyVal) (chroot late : Bool) : Except String AlbiusRecipe :=
  if late then
    match r.latePostInstallation with
    | some l =>
        .ok { r with latePostInstallation := some (l ++ [⟨chroot, operation, params⟩]) }
    | Option.none => .error "AttributeError: latePostInstallation"
  else
    .ok { r with postInstallation := r.postInstallation ++ [⟨chroot, operation, params⟩] }

/-- `merge_postinstall_steps`: appends the late bucket onto `postInstallation`
and then executes `del self.latePostInstallation`; a second call raises
`AttributeError`. -/
def AlbiusRecipe.merge_postinstall_steps (r : AlbiusRecipe) :
    Except String AlbiusRecipe :=
  match r.latePostInstallation with
  | some l =>
      .ok { r with postInstallation := r.postInstallation ++ l,
                   latePostInstallation := Option.none }
  | Option.none => .error "AttributeError: latePostInstallation"

/-- `part_prefix = f"{disk}p" if re.match(r"[0-9]", disk[-1]) else f"{disk}"`
(computed identically at lines 271 and 315-318 of `processor.py`).  Python
raises `IndexError` on an empty identifier; every caller passes a nonempty
disk, and the theorems assume `disk ≠ ""`. -/
def partPre (disk : String) : String :=
  match disk.data.getLast? with
  | some c => if c.isDigit then disk ++ "p" else disk
  | Option.none => disk

/-- Python truthiness of the optional password, as tested by
`assert password` in `__gen_auto_partition_steps` (both `None` and `""` are
falsy). -/
def truthy : Option String → Bool
  | some s => !(s == "")
  | Option.none => false

/-- Result quadruple of both partition planners:
(setup steps, mountpoints, post-install `(operation, params, chroot)` triples,
boot disk). -/
def PartInfo : Type :=
  List SetupStep × List Mountpoint × List (String × List PyVal × Bool) × Option String

/-- Setup steps of a planner result, `[]` on a raised exception. -/
def setupOf : Except String PartInfo → List SetupStep
  | .ok r => r.1
  | .error _ => []

/-- Mountpoints of a planner result, `[]` on a raised exception. -/
def mountsOf : Except String PartInfo → List Mountpoint
  | .ok r => r.2.1
  | .error _ => []

/-- The `/var` logical-volume format step emitted by
`__gen_auto_partition_steps` when encryption is requested:
`["vos-var/var", "btrfs", "vos-var"]` with the password inserted at index 2. -/
def autoVarLuksStep (disk pw : String) : SetupStep :=
  ⟨disk, "lvm-luks-format", [.str "vos-var/var", .str "btrfs", .str pw, .str "vos-var"]⟩

/-- `Processor.__gen_auto_partition_steps`.  The `root_size` argument is
accepted but unused, exactly as in the source.  The `assert password` sits
before the final `/var` format step is appended; since a failed assert
discards the whole call, the model returns the error without any steps. -/
def gen_auto_partition_steps (isUefi : Bool) (disk : String) (encrypt : Bool)
    (_root_size : ℚ) (existing_pvs existing_vgs : List String)
    (password : Option String) : Except String PartInfo :=
  let removeSteps : List SetupStep :=
    (existing_vgs.map fun vg => ⟨disk, "vgremove", [.str vg]⟩)
      ++ (existing_pvs.map fun pv => ⟨disk, "pvremove", [.str pv]⟩)
  let pre := partPre disk
  let baseSteps : List SetupStep :=
    [ ⟨disk, "label", [.str "gpt"]⟩,
      ⟨disk, "mkpart", [.str "vos-boot", .str "ext4", .int 1, .int 1025]⟩,
      ⟨disk, "mkpart", [.str "vos-efi", .str "fat32", .int 1025, .int 1537]⟩,
      ⟨disk, "setflag", [.str "2", .str "esp", .bool true]⟩,
      ⟨disk, "mkpart", [.str "vos-root", .str "none", .int 1537, .int 23556]⟩,
      ⟨disk, "mkpart", [.str "vos-var", .str "none", .int 23556, .int (-1)]⟩,
      ⟨disk, "pvcreate", [.str (pre ++ "3")]⟩,
      ⟨disk, "pvcreate", [.str (pre ++ "4")]⟩,
      ⟨disk, "vgcreate", [.str "vos-root", .strList [pre ++ "3"]]⟩,
      ⟨disk, "vgcreate", [.str "vos-var", .strList [pre ++ "4"]]⟩,
      ⟨disk, "lvcreate", [.str "init", .str "vos-root", .str "linear", .int 512]⟩,
      ⟨disk, "lvm-format", [.str "vos-root/init", .str "ext4", .str "vos-init"]⟩,
      ⟨disk, "lvcreate", [.str "root", .str "vos-root", .str "linear", .int 19456]⟩,
      ⟨disk, "lvcreate", [.str "root-meta", .str "vos-root", .str "linear", .int 1024]⟩,
      ⟨disk, "make-thin-pool", [.str "vos-root/root", .str "vos-root/root-meta"]⟩,
      ⟨disk, "lvcreate-thin", [.str "root-a", .str "vos-root", .int 19456, .str "root"]⟩,
      ⟨disk, "lvcreate-thin", [.str "root-b", .str "vos-root", .int 19456, .str "root"]⟩,
      ⟨disk, "lvm-format", [.str "vos-root/root-a", .str "btrfs", .str "vos-a"]⟩,
      ⟨disk, "lvm-format", [.str "vos-root/root-b", .str "btrfs", .str "vos-b"]⟩,
      ⟨disk, "lvcreate", [.str "var", .str "vos-var", .str "linear", .str "100%FREE"]⟩ ]
  let mounts : List Mountpoint :=
    [⟨pre ++ "1", "/boot"⟩]
      ++ (if isUefi then [⟨pre ++ "2", "/boot/efi"⟩] else [])
      ++ [ ⟨"/dev/vos-root/root-a", "/"⟩,
           ⟨"/dev/vos-root/root-b", "/"⟩,
           ⟨"/dev/vos-var/var", "/var"⟩ ]
  if encrypt then
    match password with
    | some pw =>
        if pw == "" then .error "AssertionError: password"
        else
          .ok (removeSteps ++ baseSteps ++ [autoVarLuksStep disk pw],
               mounts, [], some disk)
    | Option.none => .error "AssertionError: password"
  else
    .ok (removeSteps ++ baseSteps
          ++ [⟨disk, "lvm-format", [.str "vos-var/var", .str "btrfs", .str "vos-var"]⟩],
         mounts, [], some disk)

/-- One value of the manual-partitioning dict
(`{fs, mp, size, existing_pv, existing_vg}`). -/
structure ManualPart where
  fs : String
  mp : String
  size : ℚ
  existing_pv : Option String
  existing_vg : Option String
deriving DecidableEq, Repr

/-- Python `in` on the removal worklists. `vgs_to_remove` holds two-element
lists `[vg, disk]`, so the dedup test `vg not in vgs_to_remove` compares a
string against those pairs with Python `==`; the embedding computes the same
comparison on `PyVal`. -/
def pyIn (v : PyVal) (xs : List PyVal) : Bool :=
  xs.contains v

/-- The first loop of `__gen_manual_partition_steps`, collecting
`(vgs_to_remove, pvs_to_remove)` (both lists of `[name, disk]` pairs). -/
def collectRemovals (sep : String → String × String)
    (disk_final : List (String × ManualPart)) : List PyVal × List PyVal :=
  disk_final.foldl
    (fun acc pp =>
      match pp.2.existing_pv with
      | Option.none => acc
      | some pv =>
          let disk := (sep pv).1
          let pvs := acc.2 ++ [PyVal.strList [pv, disk]]
          let vgs :=
            match pp.2.existing_vg with
            | some vg =>
                if pyIn (PyVal.str vg) acc.1 then acc.1
                else acc.1 ++ [PyVal.strList [vg, disk]]
            | Option.none => acc.1
          (vgs, pvs))
    ([], [])

/-- `for name, disk in worklist: setup_steps.append([disk, op, [name]])`.
Every element produced by `collectRemovals` is a `[name, disk]` pair; other
shapes cannot occur and contribute nothing. -/
def removalStep (op : String) : PyVal → List SetupStep
  | PyVal.strList [name, disk] => [⟨disk, op, [PyVal.str name]⟩]
  | _ => []

/-- Accumulator of the per-partition loop of `__gen_manual_partition_steps`. -/
structure ManualAcc where
  setup : List SetupStep
  mounts : List Mountpoint
  posts : List (String × List PyVal × Bool)
  bootDisk : Option String
deriving Repr

/-- The inner `setup_partition` helper: formats the partition (LUKS when
`encrypt`, guarded by `assert password is not None` — note that, unlike the
auto path, an empty string passes this assert) and records the mountpoint. -/
def setup_partition (part_disk part_number part : String) (values : ManualPart)
    (part_name : String) (encrypt : Bool) (password : Option String) :
    Except String (List SetupStep × List Mountpoint) :=
  if encrypt then
    match password with
    | Option.none => .error "AssertionError: password is not None"
    | some pw =>
        .ok ([⟨part_disk, "luks-format",
               [.str part_number, .str values.fs, .str pw, .str part_name]⟩],
             [⟨part, values.mp⟩])
  else
    .ok ([⟨part_disk, "format", [.str part_number, .str values.fs, .str part_name]⟩],
         [⟨part, values.mp⟩])

/-- Body of the per-partition loop of `__gen_manual_partition_steps`:
dispatch on the declared mount target. -/
def manualPartStep (sep : String → String × String) (encrypt : Bool)
    (password : Option String) (acc : ManualAcc) (pp : String × ManualPart) :
    Except String ManualAcc :=
  let part := pp.1
  let values := pp.2
  let part_disk := (sep part).1
  let part_number := (sep part).2
  if values.mp == "/" then
    -- Total pool size is the partition size in MiB minus the fixed overhead
    -- (1024 MiB metadata LV + 512 MiB init LV + 1028 MiB LVM bookkeeping).
    let thin_size : ℚ := values.size / 1048576 - 1024 - 512 - 1028
    .ok { acc with
      setup := acc.setup ++
        [ ⟨part_disk, "pvcreate", [.str part]⟩,
          ⟨part_disk, "vgcreate", [.str "vos-root", .strList [part]]⟩,
          ⟨part_disk, "lvcreate", [.str "init", .str "vos-root", .str "linear", .int 512]⟩,
          ⟨part_disk, "lvm-format", [.str "vos-root/init", .str "ext4", .str "vos-init"]⟩,
          ⟨part_disk, "lvcreate", [.str "root-meta", .str "vos-root", .str "linear", .int 1024]⟩,
          ⟨part_disk, "lvcreate", [.str "root", .str "vos-root", .str "linear", .rat thin_size]⟩,
          ⟨part_disk, "make-thin-pool", [.str "vos-root/root", .str "vos-root/root-meta"]⟩,
          ⟨part_disk, "lvcreate-thin", [.str "root-a", .str "vos-root", .rat thin_size, .str "root"]⟩,
          ⟨part_disk, "lvcreate-thin", [.str "root-b", .str "vos-root", .rat thin_size, .str "root"]⟩,
          ⟨part_disk, "lvm-format", [.str "vos-root/root-a", .str "btrfs", .str "vos-a"]⟩,
          ⟨part_disk, "lvm-format", [.str "vos-root/root-b", .str "btrfs", .str "vos-b"]⟩ ],
      mounts := acc.mounts ++
        [⟨"/dev/vos-root/root-a", "/"⟩, ⟨"/dev/vos-root/root-b", "/"⟩] }
  else if values.mp == "/boot" then
    match setup_partition part_disk part_number part values "vos-boot" false Option.none with
    | .error e => .error e
    | .ok (ss, ms) =>
        .ok { acc with setup := acc.setup ++ ss, mounts := acc.mounts ++ ms,
                       bootDisk := some part_disk }
  else if values.mp == "/boot/efi" then
    match setup_partition part_disk part_number part values "vos-efi" false Option.none with
    | .error e => .error e
    | .ok (ss, ms) =>
        .ok { acc with
          setup := acc.setup ++ ss
            ++ [⟨part_disk, "setflag", [.str part_number, .str "esp", .bool true]⟩],
          mounts := acc.mounts ++ ms }
  else if values.mp == "/var" then
    match setup_partition part_disk part_number part values "vos-var" encrypt password with
    | .error e => .error e
    | .ok (ss, ms) =>
        .ok { acc with setup := acc.setup ++ ss, mounts := acc.mounts ++ ms }
  else if values.mp == "swap" then
    .ok { acc with posts := acc.posts ++ [("swapon", ([.str part], true))] }
  else
    -- any other mount target is silently ignored by the source
    .ok acc

/-- The per-partition loop of `__gen_manual_partition_steps`. -/
def manualLoop (sep : String → String × String) (encrypt : Bool)
    (password : Option String) (acc : ManualAcc) :
    List (String × ManualPart) → Except String ManualAcc
  | [] => .ok acc
  | pp :: rest =>
      match manualPartStep sep encrypt password acc pp with
      | .error e => .error e
      | .ok acc' => manualLoop sep encrypt password acc' rest

/-- `Processor.__gen_manual_partition_steps`. -/
def gen_manual_partition_steps (sep : String → String × String)
    (disk_final : List (String × ManualPart)) (encrypt : Bool)
    (password : Option String) : Except String PartInfo :=
  let worklists := collectRemovals sep disk_final
  let removePre : List SetupStep :=
    (worklists.1.map (removalStep "vgremove")).flatten
      ++ (worklists.2.map (removalStep "pvremove")).flatten
  match manualLoop sep encrypt password ⟨removePre, [], [], Option.none⟩ disk_final with
  | .error e => .error e
  | .ok acc => .ok (acc.setup, acc.mounts, acc.posts, acc.bootDisk)

/-- Manual-mode disk dicts use GParted-made partitions keyed by path; auto
mode carries the target disk plus the pre-existing LVM objects to remove. -/
inductive DiskConfig where
  | auto (disk : String) (pvs_to_remove vgs_to_remove : List String)
  | manual (parts : List (String × ManualPart))
deriving DecidableEq, Repr

/-- One FinalAnswer record.  Each Python final is a one-key dict
`{kind: payload}`; the payloads are modelled per kind. -/
inductive FinalAnswer where
  | disk (cfg : DiskConfig)
  | encryption (use_encryption : Bool) (encryption_key : Option String)
  | timezone (region zone : String)
  | language (value : String)
  | keyboard (layouts : List (String × String × String))
  | users (username fullname password : String)
  | nvidia (use_proprietary : Bool)
  | vm (use_vm_tools : Bool)
deriving DecidableEq, Repr

def isDiskFinal : FinalAnswer → Bool
  | .disk _ => true
  | _ => false

/-- The `images` mapping of the system recipe (`default`, `nvidia`, `vm`). -/
structure Images where
  defaultImg : String
  nvidiaImg : String
  vmImg : String
deriving DecidableEq, Repr

/-- The system-recipe descriptor (`images` plus `default_root_size`). -/
structure SysRecipe where
  images : Images
  default_root_size : ℚ
deriving DecidableEq, Repr

/-- The first loop of `gen_install_recipe`: scan finals for the encryption
answer; `password = final["encryption"]["encryption_key"] if encrypt else None`. -/
def encScan (finals : List FinalAnswer) : Bool × Option String :=
  finals.foldl
    (fun acc f =>
      match f with
      | .encryption use key => (use, if use then key else Option.none)
      | _ => acc)
    (false, Option.none)

/-- State threaded through the disk/nvidia/vm loop of `gen_install_recipe`. -/
structure GenAcc where
  recipe : AlbiusRecipe
  ociImage : String
  bootDisk : Option String
deriving Repr

/-- `for step in post_install_steps: recipe.add_postinstall_step(*step)`
(the `late` keyword keeps its default `False`). -/
def addPlannerPosts (r : AlbiusRecipe) :
    List (String × List PyVal × Bool) → Except String AlbiusRecipe
  | [] => .ok r
  | p :: rest =>
      match r.add_postinstall_step p.1 p.2.1 p.2.2 false with
      | .error e => .error e
      | .ok r' => addPlannerPosts r' rest

/-- Unpacking of a planner quadruple into the recipe:
`for step in setup_steps: recipe.add_setup_step(*step)` and so on. -/
def applyPartInfo (r : AlbiusRecipe) (info : PartInfo) :
    Except String (AlbiusRecipe × Option String) :=
  let r1 := info.1.foldl (fun r s => r.add_setup_step s.disk s.operation s.params) r
  let r2 := info.2.1.foldl (fun r m => r.add_mountpoint m.partition m.target) r1
  match addPlannerPosts r2 info.2.2.1 with
  | .error e => .error e
  | .ok r3 => .ok (r3, info.2.2.2)

/-- Body of the second loop of `gen_install_recipe` (`disk` / `nvidia` / `vm`
answers; everything else is skipped by the `elif` chain). -/
def diskLoopStep (sep : String → String × String) (isUefi : Bool)
    (root_size : ℚ) (encrypt : Bool) (password : Option String) (images : Images)
    (acc : GenAcc) (f : FinalAnswer) : Except String GenAcc :=
  match f with
  | .disk (.auto disk pvs vgs) =>
      match gen_auto_partition_steps isUefi disk encrypt root_size pvs vgs password with
      | .error e => .error e
      | .ok info =>
          match applyPartInfo acc.recipe info with
          | .error e => .error e
          | .ok (r, bd) => .ok ⟨r, acc.ociImage, bd⟩
  | .disk (.manual parts) =>
      match gen_manual_partition_steps sep parts encrypt password with
      | .error e => .error e
      | .ok info =>
          match applyPartInfo acc.recipe info with
          | .error e => .error e
          | .ok (r, bd) => .ok ⟨r, acc.ociImage, bd⟩
  | .nvidia b => .ok (if b then { acc with ociImage := images.nvidiaImg } else acc)
  | .vm b => .ok (if b then { acc with ociImage := images.vmImg } else acc)
  | _ => .ok acc

/-- The disk/nvidia/vm loop over the finals, threading the recipe, the chosen
base image and the boot disk. -/
def diskLoop (sep : String → String × String) (isUefi : Bool) (root_size : ℚ)
    (encrypt : Bool) (password : Option String) (images : Images) (acc : GenAcc) :
    List FinalAnswer → Except String GenAcc
  | [] => .ok acc
  | f :: rest =>
      match diskLoopStep sep isUefi root_size encrypt password images acc f with
      | .error e => .error e
      | .ok acc' => diskLoop sep isUefi root_size encrypt password images acc' rest

/-- Result of `Processor.__find_partitions`
(boot, efi, root-A, root-B, var; `""` when absent). -/
structure FoundParts where
  boot : String
  efi : String
  rootA : String
  rootB : String
  var : String
deriving DecidableEq, Repr

/-- One iteration of the `__find_partitions` scan; `if not root_a_partition`
is Python falsiness of the empty string. -/
def findStep (acc : FoundParts) (m : Mountpoint) : FoundParts :=
  if m.target == "/boot" then { acc with boot := m.partition }
  else if m.target == "/boot/efi" then { acc with efi := m.partition }
  else if m.target == "/" then
    if acc.rootA == "" then { acc with rootA := m.partition }
    else { acc with rootB := m.partition }
  else if m.target == "/var" then { acc with var := m.partition }
  else acc

def findFold : List Mountpoint → FoundParts → FoundParts
  | [], acc => acc
  | m :: rest, acc => findFold rest (findStep acc m)

/-- `Processor.__find_partitions`. -/
def find_partitions (mounts : List Mountpoint) : FoundParts :=
  findFold mounts ⟨"", "", "", "", ""⟩

/-- One recorded call to `add_postinstall_step` during the post-installation
phase of `gen_install_recipe`. -/
structure PostCall where
  operation : String
  params : List PyVal
  chroot : Bool
  late : Bool
deriving DecidableEq, Repr

/-- The PostInstallStep a call produces. -/
def mkPost (c : PostCall) : PostInstallStep :=
  ⟨c.chroot, c.operation, c.params⟩

/-- Replays a list of `add_postinstall_step` calls on a recipe, in order. -/
def addCalls (r : AlbiusRecipe) : List PostCall → Except String AlbiusRecipe
  | [] => .ok r
  | c :: rest =>
      match r.add_postinstall_step c.operation c.params c.chroot c.late with
      | .error e => .error e
      | .ok r' => addCalls r' rest

/-- `systemd_mount_unit_contents` (source, destination, fs type, options,
unit file name). -/
def systemd_mount_unit_contents : List (List String) :=
  [ ["/var/home", "/home", "none", "bind", "home.mount"],
    ["/var/opt", "/opt", "none", "bind", "opt.mount"],
    [ "/var/lib/abroot/etc/vos-a/locales", "/.system/usr/lib/locale", "none",
      "bind", "\\x2esystem-usr-lib-locale.mount" ],
    [ "overlay", "/.system/etc", "overlay",
      "lowerdir=/.system/etc,upperdir=/var/lib/abroot/etc/vos-a,workdir=/var/lib/abroot/etc/vos-a-work",
      "\\x2esystem-etc.mount" ] ]

/-- The per-unit `shell` step installing a systemd mount unit (the unit file
content itself is written to `/tmp` and is not part of the recipe). -/
def systemdUnitCalls : List PostCall :=
  systemd_mount_unit_contents.map fun unit =>
    let filename := unit.getD 4 ""
    let fe := filename.replace "\\" "\\\\"
    ⟨"shell",
     [ .str ("cp /tmp/" ++ fe ++ " /mnt/a/etc/systemd/system/" ++ fe),
       .str "mkdir -p /mnt/a/etc/systemd/system/local-fs.target.wants",
       .str ("ln -s ../" ++ fe ++ " /mnt/a/etc/systemd/system/local-fs.target.wants/" ++ fe) ],
     false, false⟩

def BASE_DIRS : List String :=
  [ "boot", "dev", "home", "media", "mnt", "var", "opt",
    "part-future", "proc", "root", "run", "srv", "sys", "tmp" ]

def REL_LINKS : List String :=
  [ "usr", "etc", "usr/bin", "usr/lib", "usr/lib32", "usr/lib64",
    "usr/libx32", "usr/sbin" ]

def REL_SYSTEM_LINKS : List String := ["dev", "proc", "run", "srv", "sys", "media"]

/-- `" ".join(s.split())` — Python `str.split()` with no separator splits on
runs of whitespace and drops empty fields. -/
def normJoin (s : String) : String :=
  String.intercalate " " ((s.split Char.isWhitespace).filter (fun t => !(t == "")))

/-- The "Adapt root A filesystem structure" shell step. -/
def adaptRootCall (encrypt : Bool) (p : FoundParts) : PostCall :=
  let var_label :=
    if encrypt then "/dev/mapper/luks-$(lsblk -d -y -n -o UUID " ++ p.var ++ ")"
    else p.var
  ⟨"shell",
   (([ "umount /mnt/a/var",
       "mkdir /mnt/a/tmp-boot",
       "cp -r /mnt/a/boot /mnt/a/tmp-boot",
       "umount -l " ++ p.boot,
       "mkdir -p /mnt/a/.system",
       "mv /mnt/a/* /mnt/a/.system/",
       "mv /mnt/a/.system/tmp-boot/boot/* /mnt/a/.system/boot",
       "rm -rf /mnt/a/.system/tmp-boot" ]
     ++ BASE_DIRS.map (fun path => "mkdir -p /mnt/a/" ++ path)
     ++ REL_LINKS.map (fun path => "ln -rs /mnt/a/.system/" ++ path ++ " /mnt/a/")
     ++ REL_SYSTEM_LINKS.map (fun path => "rm -rf /mnt/a/.system/" ++ path)
     ++ REL_SYSTEM_LINKS.map (fun path => "ln -rs /mnt/a/" ++ path ++ " /mnt/a/.system/")
     ++ [ "mount " ++ var_label ++ " /mnt/a/var",
          "mount " ++ p.boot ++ " /mnt/a/boot"
            ++ (if !(p.efi == "") then " && mount " ++ p.efi ++ " /mnt/a/boot/efi" else "") ]).map PyVal.str),
   false, false⟩

/-- The abroot.cfg substitution step.  The Python source assembles the command
with backslash-continuations inside the f-string (producing runs of spaces)
and normalises it with `" ".join(cmd.split())`; building the raw text with
single spaces yields the same token sequence, so `normJoin` gives the same
string. -/
def abrootCfgCall (p : FoundParts) : PostCall :=
  ⟨"shell",
   [ .str (normJoin ("BOOT_UUID=$(lsblk -d -n -o UUID " ++ p.boot
       ++ ") ROOTA_UUID=$(lsblk -d -n -o UUID " ++ p.rootA
       ++ ") KERNEL_VERSION=$(ls -1 /mnt/a/usr/lib/modules | sed '1p;d')"
       ++ " envsubst < /tmp/abroot.cfg > /mnt/a/.system/boot/init/vos-a/abroot.cfg"
       ++ " '$BOOT_UUID $ROOTA_UUID $KERNEL_VERSION'")) ],
   false, false⟩

/-- The fstab rewrite step. -/
def fstabCall (encrypt : Bool) (p : FoundParts) : PostCall :=
  let var_location_pre := if encrypt then "/dev/mapper/luks-" else "UUID="
  ⟨"shell",
   [ .str ("ROOTB_UUID=$(lsblk -d -y -n -o UUID " ++ p.rootB
       ++ ") && sed -i \"/UUID=$ROOTB_UUID/d\" /mnt/a/etc/fstab"),
     .str "sed -i -r '/^[^#]\\S+\\s+\\/\\S+\\s+.+$/d' /mnt/a/etc/fstab",
     .str "echo '/.system/usr  /.system/usr  none  bind,ro' >> /mnt/a/etc/fstab",
     .str ("VAR_UUID=$(lsblk -d -n -o UUID " ++ p.var ++ ") && echo \""
       ++ var_location_pre
       ++ "$VAR_UUID /var  auto  defaults  0  0\" >> /mnt/a/etc/fstab") ],
   false, false⟩

/-- `None`-aware conversion of the optional boot disk into a parameter. -/
def ofOptStr : Option String → PyVal
  | some s => .str s
  | Option.none => .none

/-- The steps guarded by `if "VANILLA_SKIP_POSTINSTALL" not in os.environ`. -/
def skipBlockCalls (encrypt isUefi : Bool) (p : FoundParts)
    (bootDisk : Option String) : List PostCall :=
  let grub_type := if isUefi then "efi" else "bios"
  [ adaptRootCall encrypt p,
    -- default user creation, deferred as late (runs after the /etc overlay)
    ⟨"adduser",
     [.str "vanilla", .str "vanilla", .strList ["sudo", "lpadmin"], .str "vanilla"],
     true, true⟩,
    ⟨"shell",
     [ .str "mkdir -p /etc/gdm3",
       .str "echo '[daemon]\nAutomaticLogin=vanilla\nAutomaticLoginEnable=True' > /etc/gdm3/daemon.conf",
       .str "mkdir -p /home/vanilla/.config/dconf",
       .str "chmod 700 /home/vanilla/.config/dconf" ],
     true, false⟩,
    ⟨"shell",
     [ .str "mkdir -p /var/lib/AccountsService/users",
       .str "echo '[User]\nSession=firstsetup' > /var/lib/AccountsService/users/vanilla" ],
     true, false⟩,
    ⟨"shell",
     [ .str "mkdir -p /home/vanilla/.config/autostart",
       .str "cp /usr/share/applications/org.vanillaos.FirstSetup.desktop /home/vanilla/.config/autostart" ],
     true, true⟩,
    ⟨"grub-install", [.str "/mnt/a/boot", ofOptStr bootDisk, .str grub_type, .str p.efi],
     false, false⟩,
    ⟨"grub-install", [.str "/boot", ofOptStr bootDisk, .str grub_type, .str p.efi],
     true, false⟩,
    ⟨"grub-mkconfig", [.str "/boot/grub/grub.cfg"], true, false⟩,
    ⟨"shell", [.str "cp /tmp/boot-grub.cfg /mnt/a/boot/grub/grub.cfg"], false, false⟩,
    ⟨"shell", [.str "umount -l /mnt/a/boot", .str "mkdir -p /mnt/a/boot/grub"],
     false, false⟩,
    ⟨"grub-mkconfig", [.str "/boot/grub/grub.cfg"], true, false⟩,
    ⟨"shell",
     [ .str "mkdir /.system/boot/init",
       .str "mount /dev/vos-root/init /.system/boot/init",
       .str "mkdir /.system/boot/init/vos-a",
       .str "mkdir /.system/boot/init/vos-b",
       .str "mv /.system/boot/vmlinuz* /.system/boot/init/vos-a",
       .str "mv /.system/boot/initrd* /.system/boot/init/vos-a" ],
     true, false⟩,
    abrootCfgCall p,
    fstabCall encrypt p,
    ⟨"shell",
     [ .str "mv /.system/home /var",
       .str "mv /.system/opt /var",
       .str "mv /.system/tmp /var",
       .str "mkdir -p /var/lib/abroot/etc/vos-a /var/lib/abroot/etc/vos-b /var/lib/abroot/etc/vos-a-work /var/lib/abroot/etc/vos-b-work",
       .str "mount -t overlay overlay -o lowerdir=/.system/etc,upperdir=/var/lib/abroot/etc/vos-a,workdir=/var/lib/abroot/etc/vos-a-work /etc",
       .str "mv /var/storage /var/lib/abroot/",
       .str "mount -o bind /var/home /home",
       .str "mount -o bind /var/opt /opt",
       .str "mount -o bind,ro /.system/usr /usr",
       .str "mkdir -p /var/lib/abroot/etc/vos-a/locales",
       .str "mount -o bind /var/lib/abroot/etc/vos-a/locales /usr/lib/locale" ],
     true, false⟩ ]

/-- The third loop over finals (`timezone`, `language`, `keyboard`; any other
key — including `users` — matches none of the `if key == ...` tests and adds
nothing). -/
def finalsCalls (finals : List FinalAnswer) : List PostCall :=
  (finals.map fun f =>
    match f with
    | .timezone region zone => [⟨"timezone", [.str (region ++ "/" ++ zone)], true, false⟩]
    | .language v => [⟨"locale", [.str v], true, false⟩]
    | .keyboard layouts =>
        layouts.map fun l => ⟨"keyboard", [.str l.1, .str l.2.1, .str l.2.2], true, false⟩
    | _ => []).flatten

/-- The closing fixed steps: the abimage substitution (the file content with
the timestamp is written to `/tmp`, not into the recipe), the late `chown` of
the default user's home, and the ABRoot thin-provisioning configuration. -/
def tailCalls : List PostCall :=
  [ ⟨"shell",
     [ .str (normJoin ("IMAGE_DIGEST=$(cat /mnt/a/.oci_digest)"
         ++ " envsubst < /tmp/abimage.abr > /mnt/a/abimage.abr '$IMAGE_DIGEST'")) ],
     false, false⟩,
    ⟨"shell", [.str "chown -R vanilla:vanilla /home/vanilla"], true, true⟩,
    ⟨"shell",
     [ .str "mkdir -p /etc/abroot",
       .str ("echo \"$(head -n-1 /usr/share/abroot/abroot.json),\n    \\\"thinProvisioning\\\": true,\n    \\\"thinInitVolume\\\": \\\"vos-init\\\"\n\x7d\" > /etc/abroot/abroot.json") ],
     true, false⟩ ]

/-- Every `add_postinstall_step` call issued by `gen_install_recipe` after the
disk loop, in program order. -/
def postPhaseCalls (encrypt isUefi skipPostinstall : Bool) (p : FoundParts)
    (bootDisk : Option String) (finals : List FinalAnswer) : List PostCall :=
  systemdUnitCalls
    ++ (if skipPostinstall then [] else skipBlockCalls encrypt isUefi p bootDisk)
    ++ [⟨"hostname", [.str "vanilla"], true, false⟩]
    ++ finalsCalls finals
    ++ tailCalls

/-- `Processor.gen_install_recipe`.  The unused `log_path` argument, the
logging, the `VANILLA_FAKE` short-circuit and the JSON/temp-file output are
I/O at the boundary; the function models the recipe value that is serialized. -/
def gen_install_recipe (sep : String → String × String)
    (isUefi skipPostinstall : Bool) (finals : List FinalAnswer)
    (sys_recipe : SysRecipe) : Except String AlbiusRecipe :=
  let images := sys_recipe.images
  let root_size := sys_recipe.default_root_size
  let ep := encScan finals
  match diskLoop sep isUefi root_size ep.1 ep.2 images
      ⟨AlbiusRecipe.new, images.defaultImg, Option.none⟩ finals with
  | .error e => .error e
  | .ok acc =>
      let r := acc.recipe.set_installation "oci" acc.ociImage
      let p := find_partitions r.mountpoints
      match addCalls r (postPhaseCalls ep.1 isUefi skipPostinstall p acc.bootDisk finals) with
      | .error e => .error e
      | .ok r2 => r2.merge_postinstall_steps

/-- Whether planning succeeded (no Python exception). -/
def planOk : Except String AlbiusRecipe → Bool
  | .ok _ => true
  | .error _ => false

/-- Setup list of the produced recipe (`[]` on an exception). -/
def recipeSetup : Except String AlbiusRecipe → List SetupStep
  | .ok r => r.setup
  | .error _ => []

/-- Mountpoint list of the produced recipe (`[]` on an exception). -/
def recipeMounts : Except String AlbiusRecipe → List Mountpoint
  | .ok r => r.mountpoints
  | .error _ => []

/-- Installation source of the produced recipe. -/
def recipeSource : Except String AlbiusRecipe → Option String
  | .ok r => r.installation.map Installation.source
  | .error _ => Option.none

/-- Post-installation steps of the produced recipe (`[]` on an exception). -/
def recipePosts : Except String AlbiusRecipe → List PostInstallStep
  | .ok r => r.postInstallation
  | .error _ => []

/-- The mountpoints whose target is `/`. -/
def rootMounts (mounts : List Mountpoint) : List Mountpoint :=
  mounts.filter (fun m => m.target == "/")

/-- Modelled from the spec: `Diskutils.separate_device_and_partn` lives in
`vanilla_installer/core/disks.py`, which is not part of the reviewed sources;
per the spec it parses a partition path string into (device, partition
number).  This concrete model strips the trailing digits; it is used only to
instantiate theorems that quantify over the parser. -/
def separate_device_and_partn (p : String) : String × String :=
  let digits := (p.data.reverse.takeWhile Char.isDigit).reverse
  (String.mk (p.data.take (p.data.length - digits.length)), String.mk digits)

/-- Modelled from the spec's own words (§4.1/§8): a partition path derived
from a disk and a partition number appends `p<N>` when the disk identifier
ends in a digit and `<N>` otherwise.  Used as the specification side of the
naming-rule claim. -/
def specPartitionPath (disk : String) (n : Nat) : String :=
  if (disk.data.getLast?.getD ' ').isDigit then disk ++ "p" ++ toString n
  else disk ++ toString n

/-- The base-image reference a single FinalAnswer selects, if any (used to
state the amended image-selection property: the last selecting answer wins). -/
def toggleImage (images : Images) : FinalAnswer → Option String
  | .nvidia b => if b then some images.nvidiaImg else Option.none
  | .vm b => if b then some images.vmImg else Option.none
  | _ => Option.none

/-- Concrete system recipe for counterexamples and witnesses. -/
def sr0 : SysRecipe := ⟨⟨"img-default", "img-nvidia", "img-vm"⟩, 10⟩

/-- Concrete manual disk configuration with two partitions both mounted at `/`
(50 GiB each). -/
def c1parts : List (String × ManualPart) :=
  [ ("/dev/sda1", ⟨"btrfs", "/", 53687091200, Option.none, Option.none⟩),
    ("/dev/sda2", ⟨"btrfs", "/", 53687091200, Option.none, Option.none⟩) ]

/-- Concrete manual disk configuration with a single `/var` partition and no
pre-existing LVM objects. -/
def c3parts : List (String × ManualPart) :=
  [("/dev/sda3", ⟨"btrfs", "/var", 1048576, Option.none, Option.none⟩)]

/-- Concrete manual disk configuration whose two partitions reference the same
existing volume group `oldvg`. -/
def c8parts : List (String × ManualPart) :=
  [ ("/dev/sdb1", ⟨"ext4", "/boot", 1048576, some "/dev/sdb1", some "oldvg"⟩),
    ("/dev/sdb2", ⟨"btrfs", "/var", 1048576, some "/dev/sdb2", some "oldvg"⟩) ]

theorem addCalls_ok (calls : List PostCall) (r : AlbiusRecipe)
    (l : List PostInstallStep) (h : r.latePostInstallation = some l) :
    addCalls r calls = .ok
      { r with
        postInstallation :=
          r.postInstallation ++ (calls.filter (fun c => !c.late)).map mkPost,
        latePostInstallation :=
          some (l ++ (calls.filter (fun c => c.late)).map mkPost) } := by
  induction calls generalizing r l with
  | nil => simp [addCalls, ← h]
  | cons c cs ih =>
      rw [addCalls, AlbiusRecipe.add_postinstall_step]
      by_cases hc : c.late = true
      · simp only [hc, if_true, h]
        rw [ih _ _ rfl]
        simp [List.filter_cons, hc, mkPost, List.append_assoc]
      · have hc' : c.late = false := by
          cases hcl : c.late
          · rfl
          · exact absurd hcl hc
        simp only [hc', Bool.false_eq_true, if_false]
        rw [ih { r with postInstallation :=
            r.postInstallation ++ [⟨c.chroot, c.operation, c.params⟩] } l h]
        simp [List.filter_cons, hc', mkPost, List.append_assoc]

/-- C2: for every interleaving of `add_postinstall_step` calls with
`late=false` and `late=true` on a fresh recipe, after
`merge_postinstall_steps` the `postInstallation` list equals the
normal-group steps in insertion order followed by the late-group steps in
insertion order. -/
theorem c2_merge_order (calls : List PostCall) :
    Except.bind (addCalls AlbiusRecipe.new calls) AlbiusRecipe.merge_postinstall_steps =
      .ok ⟨[], [], Option.none,
           (calls.filter (fun c => !c.late)).map mkPost
             ++ (calls.filter (fun c => c.late)).map mkPost,
           Option.none⟩ := by
  rw [show AlbiusRecipe.new = ⟨[], [], Option.none, [], some []⟩ from rfl]
  rw [addCalls_ok calls ⟨[], [], Option.none, [], some []⟩ [] rfl]
  simp [Except.bind, AlbiusRecipe.merge_postinstall_steps]

/-- C10: once `merge_postinstall_steps` has run, merging again or adding a
late step raises (`latePostInstallation` was deleted, not cleared), while a
normal `add_postinstall_step` still succeeds and appends to the merged
`postInstallation` list. -/
theorem c10_after_merge (r r' : AlbiusRecipe)
    (h : r.merge_postinstall_steps = .ok r') (op : String) (ps : List PyVal)
    (c : Bool) :
    r'.merge_postinstall_steps = .error "AttributeError: latePostInstallation"
    ∧ r'.add_postinstall_step op ps c true = .error "AttributeError: latePostInstallation"
    ∧ r'.add_postinstall_step op ps c false =
        .ok { r' with postInstallation := r'.postInstallation ++ [⟨c, op, ps⟩] } := by
  rw [AlbiusRecipe.merge_postinstall_steps] at h
  cases hl : r.latePostInstallation with
  | none => rw [hl] at h; exact absurd h (by simp)
  | some l =>
      rw [hl] at h
      injection h with h'
      subst h'
      exact ⟨rfl, rfl, rfl⟩

/-- Witness for C10 at the freshly merged empty recipe. -/
theorem c10_witness :
    AlbiusRecipe.merge_postinstall_steps ⟨[], [], Option.none, [], Option.none⟩ =
        .error "AttributeError: latePostInstallation"
    ∧ AlbiusRecipe.add_postinstall_step ⟨[], [], Option.none, [], Option.none⟩
        "shell" [] false true = .error "AttributeError: latePostInstallation"
    ∧ AlbiusRecipe.add_postinstall_step ⟨[], [], Option.none, [], Option.none⟩
        "shell" [] false false =
        .ok ⟨[], [], Option.none, [⟨false, "shell", []⟩], Option.none⟩ :=
  c10_after_merge AlbiusRecipe.new ⟨[], [], Option.none, [], Option.none⟩ rfl
    "shell" [] false

/-- C6: in auto-mode planning, `encrypt=false` emits no luks operation;
`encrypt=true` with a non-empty password makes the final `/var` LV format
step `lvm-luks-format` with the password among its parameters; `encrypt=true`
with a missing or empty password raises instead of emitting any step. -/
theorem c6_auto_luks (isUefi : Bool) (disk : String) (root_size : ℚ)
    (pvs vgs : List String) :
    (∀ password s,
        s ∈ setupOf (gen_auto_partition_steps isUefi disk false root_size pvs vgs password) →
        s.operation ≠ "lvm-luks-format" ∧ s.operation ≠ "luks-format")
    ∧ (∀ pw, pw ≠ "" →
        (setupOf (gen_auto_partition_steps isUefi disk true root_size pvs vgs (some pw))).getLast?
            = some (autoVarLuksStep disk pw)
          ∧ PyVal.str pw ∈ (autoVarLuksStep disk pw).params)
    ∧ gen_auto_partition_steps isUefi disk true root_size pvs vgs Option.none
        = .error "AssertionError: password"
    ∧ gen_auto_partition_steps isUefi disk true root_size pvs vgs (some "")
        = .error "AssertionError: password" := by
  refine ⟨?_, ?_, rfl, rfl⟩
  · intro password s hs
    simp only [gen_auto_partition_steps, setupOf, Bool.false_eq_true, if_false] at hs
    rcases List.mem_append.mp hs with h1 | h2
    · rcases List.mem_append.mp h1 with h3 | h4
      · rcases List.mem_append.mp h3 with h5 | h6
        · obtain ⟨vg, _, rfl⟩ := List.mem_map.mp h5
          exact ⟨ne_of_beq_false rfl, ne_of_beq_false rfl⟩
        · obtain ⟨pv, _, rfl⟩ := List.mem_map.mp h6
          exact ⟨ne_of_beq_false rfl, ne_of_beq_false rfl⟩
      · simp only [List.mem_cons, List.not_mem_nil, or_false] at h4
        rcases h4 with rfl | rfl | rfl | rfl | rfl | rfl | rfl | rfl | rfl | rfl
          | rfl | rfl | rfl | rfl | rfl | rfl | rfl | rfl | rfl | rfl <;>
          exact ⟨ne_of_beq_false rfl, ne_of_beq_false rfl⟩
    · simp only [List.mem_singleton] at h2
      subst h2
      exact ⟨ne_of_beq_false rfl, ne_of_beq_false rfl⟩
  · intro pw hpw
    have hne : (pw == "") = false := by
      simp [hpw]
    refine ⟨?_, by simp [autoVarLuksStep]⟩
    simp only [gen_auto_partition_steps, setupOf, if_true, hne, Bool.false_eq_true,
      if_false]
    exact List.getLast?_concat _

/-- Witness for C6 at concrete inputs: disk `sda`, password `secret` resp.
missing/empty passwords. -/
theorem c6_witness :
    (("label" : String) ≠ "lvm-luks-format" ∧ ("label" : String) ≠ "luks-format")
    ∧ ((setupOf (gen_auto_partition_steps false "sda" true 10 [] [] (some "secret"))).getLast?
          = some (autoVarLuksStep "sda" "secret")
        ∧ PyVal.str "secret" ∈ (autoVarLuksStep "sda" "secret").params)
    ∧ gen_auto_partition_steps false "sda" true 10 [] [] Option.none
        = .error "AssertionError: password"
    ∧ gen_auto_partition_steps false "sda" true 10 [] [] (some "")
        = .error "AssertionError: password" := by
  obtain ⟨h1, h2, h3, h4⟩ := c6_auto_luks false "sda" 10 [] []
  exact ⟨h1 Option.none ⟨"sda", "label", [.str "gpt"]⟩ (by decide),
         h2 "secret" (by decide), h3, h4⟩

theorem partPre_spec (disk : String) (h : disk ≠ "") (n : Nat) :
    partPre disk ++ toString n = specPartitionPath disk n := by
  have hne : disk.data ≠ [] := by
    intro hd
    apply h
    show String.mk disk.data = ""
    rw [hd]
  obtain ⟨c, hc⟩ : ∃ c, disk.data.getLast? = some c := by
    cases hgl : disk.data.getLast? with
    | some c => exact ⟨c, rfl⟩
    | none => exact absurd (List.getLast?_eq_none_iff.mp hgl) hne
  rw [partPre, specPartitionPath, hc]
  simp only [Option.getD_some]
  by_cases hd : c.isDigit
  · simp [hd, String.append_assoc]
  · simp [hd]

/-- C5: the partition-device naming rule — `p<N>` when the disk identifier
ends in a digit, `<N>` otherwise (stated via the spec-side `specPartitionPath`)
— governs both the setup-step targets (pvcreate/vgcreate) and the mountpoint
derivation of auto-mode planning. -/
theorem c5_partition_naming (isUefi : Bool) (disk : String) (h : disk ≠ "")
    (root_size : ℚ) (pvs vgs : List String) :
    (⟨disk, "pvcreate", [.str (specPartitionPath disk 3)]⟩ : SetupStep) ∈
        setupOf (gen_auto_partition_steps isUefi disk false root_size pvs vgs Option.none)
    ∧ (⟨disk, "pvcreate", [.str (specPartitionPath disk 4)]⟩ : SetupStep) ∈
        setupOf (gen_auto_partition_steps isUefi disk false root_size pvs vgs Option.none)
    ∧ (⟨disk, "vgcreate", [.str "vos-root", .strList [specPartitionPath disk 3]]⟩ : SetupStep) ∈
        setupOf (gen_auto_partition_steps isUefi disk false root_size pvs vgs Option.none)
    ∧ (⟨disk, "vgcreate", [.str "vos-var", .strList [specPartitionPath disk 4]]⟩ : SetupStep) ∈
        setupOf (gen_auto_partition_steps isUefi disk false root_size pvs vgs Option.none)
    ∧ (mountsOf (gen_auto_partition_steps isUefi disk false root_size pvs vgs Option.none)).head?
        = some ⟨specPartitionPath disk 1, "/boot"⟩
    ∧ (isUefi = true →
        (mountsOf (gen_auto_partition_steps isUefi disk false root_size pvs vgs Option.none))[1]?
          = some ⟨specPartitionPath disk 2, "/boot/efi"⟩) := by
  refine ⟨?_, ?_, ?_, ?_, ?_, ?_⟩
  · rw [← partPre_spec disk h 3, show toString (3 : Nat) = "3" from by decide]
    simp [gen_auto_partition_steps, setupOf]
  · rw [← partPre_spec disk h 4, show toString (4 : Nat) = "4" from by decide]
    simp [gen_auto_partition_steps, setupOf]
  · rw [← partPre_spec disk h 3, show toString (3 : Nat) = "3" from by decide]
    simp [gen_auto_partition_steps, setupOf]
  · rw [← partPre_spec disk h 4, show toString (4 : Nat) = "4" from by decide]
    simp [gen_auto_partition_steps, setupOf]
  · rw [← partPre_spec disk h 1, show toString (1 : Nat) = "1" from by decide]
    simp [gen_auto_partition_steps, mountsOf]
  · intro hu
    subst hu
    rw [← partPre_spec disk h 2, show toString (2 : Nat) = "2" from by decide]
    simp [gen_auto_partition_steps, mountsOf]

/-- Witness for C5 at the spec's own examples: `nvme0n1` (trailing digit) and
`sda` (no trailing digit). -/
theorem c5_witness :
    (mountsOf (gen_auto_partition_steps false "nvme0n1" false 10 [] [] Option.none)).head?
        = some ⟨"nvme0n1p1", "/boot"⟩
    ∧ (mountsOf (gen_auto_partition_steps false "sda" false 10 [] [] Option.none)).head?
        = some ⟨"sda1", "/boot"⟩ := by
  constructor
  · have := (c5_partition_naming false "nvme0n1" (by decide) 10 [] []).2.2.2.2.1
    rwa [show specPartitionPath "nvme0n1" 1 = "nvme0n1p1" from by decide] at this
  · have := (c5_partition_naming false "sda" (by decide) 10 [] []).2.2.2.2.1
    rwa [show specPartitionPath "sda" 1 = "sda1" from by decide] at this

/-- C3 (code bug evidence): manual-mode planning with `encrypt=true` and an
*empty* password proceeds — `setup_partition`'s `assert password is not None`
accepts `""` — and emits a `luks-format` step whose parameter list carries the
empty credential, while the auto path (`assert password`) rejects the very
same password. -/
theorem c3_empty_password_bug :
    gen_manual_partition_steps separate_device_and_partn c3parts true (some "")
        = .ok ([⟨"/dev/sda", "luks-format", [.str "3", .str "btrfs", .str "", .str "vos-var"]⟩],
               [⟨"/dev/sda3", "/var"⟩], [], Option.none)
    ∧ gen_auto_partition_steps false "sda" true 10 [] [] (some "")
        = .error "AssertionError: password" :=
  ⟨rfl, rfl⟩

/-- C8 (code bug evidence): with two manual partitions referencing the same
existing volume group `oldvg`, the removal prologue emits `vgremove oldvg`
twice — the dedup test `vg not in vgs_to_remove` compares the string `vg`
against `[vg, disk]` pairs and is therefore always true.  The evaluation also
exhibits the (correct) ordering: every `vgremove` precedes every `pvremove`. -/
theorem c8_vgremove_dedup_bug :
    gen_manual_partition_steps separate_device_and_partn c8parts false Option.none
        = .ok ([ ⟨"/dev/sdb", "vgremove", [.str "oldvg"]⟩,
                 ⟨"/dev/sdb", "vgremove", [.str "oldvg"]⟩,
                 ⟨"/dev/sdb", "pvremove", [.str "/dev/sdb1"]⟩,
                 ⟨"/dev/sdb", "pvremove", [.str "/dev/sdb2"]⟩,
                 ⟨"/dev/sdb", "format", [.str "1", .str "ext4", .str "vos-boot"]⟩,
                 ⟨"/dev/sdb", "format", [.str "2", .str "btrfs", .str "vos-var"]⟩ ],
               [⟨"/dev/sdb1", "/boot"⟩, ⟨"/dev/sdb2", "/var"⟩], [], some "/dev/sdb") :=
  rfl

theorem addPost_fields (r r' : AlbiusRecipe) (op : String) (ps : List PyVal)
    (c l : Bool) (h : r.add_postinstall_step op ps c l = .ok r') :
    r'.setup = r.setup ∧ r'.mountpoints = r.mountpoints
      ∧ r'.installation = r.installation := by
  rw [AlbiusRecipe.add_postinstall_step] at h
  by_cases hl : l = true
  · subst hl
    simp only [if_true] at h
    cases hb : r.latePostInstallation with
    | some xs => rw [hb] at h; injection h with h'; subst h'; exact ⟨rfl, rfl, rfl⟩
    | none => rw [hb] at h; simp at h
  · have hl' : l = false := by
      cases l with
      | false => rfl
      | true => exact absurd rfl hl
    subst hl'
    simp only [Bool.false_eq_true, if_false] at h
    injection h with h'
    subst h'
    exact ⟨rfl, rfl, rfl⟩

theorem addCalls_fields (calls : List PostCall) (r r' : AlbiusRecipe)
    (h : addCalls r calls = .ok r') :
    r'.setup = r.setup ∧ r'.mountpoints = r.mountpoints
      ∧ r'.installation = r.installation := by
  induction calls generalizing r with
  | nil =>
      rw [addCalls] at h
      injection h with h'
      subst h'
      exact ⟨rfl, rfl, rfl⟩
  | cons c cs ih =>
      rw [addCalls] at h
      cases hstep : r.add_postinstall_step c.operation c.params c.chroot c.late with
      | error e => rw [hstep] at h; simp at h
      | ok r2 =>
          rw [hstep] at h
          obtain ⟨h1, h2, h3⟩ := addPost_fields r r2 _ _ _ _ hstep
          obtain ⟨g1, g2, g3⟩ := ih r2 h
          exact ⟨g1.trans h1, g2.trans h2, g3.trans h3⟩

theorem merge_fields (r r' : AlbiusRecipe) (h : r.merge_postinstall_steps = .ok r') :
    r'.setup = r.setup ∧ r'.mountpoints = r.mountpoints
      ∧ r'.installation = r.installation := by
  rw [AlbiusRecipe.merge_postinstall_steps] at h
  cases hb : r.latePostInstallation with
  | some xs => rw [hb] at h; injection h with h'; subst h'; exact ⟨rfl, rfl, rfl⟩
  | none => rw [hb] at h; simp at h

theorem getLastD_cons {α : Type} (x : α) (xs : List α) (i : α) :
    ((x :: xs).getLast?).getD i = (xs.getLast?).getD x := by
  cases xs with
  | nil => rfl
  | cons y ys =>
      cases hgl : (y :: ys).getLast? with
      | some z => rw [List.getLast?_cons_cons, hgl]; rfl
      | none => exact absurd (List.getLast?_eq_none_iff.mp hgl) (by simp)

theorem diskLoopStep_oci (sep : String → String × String) (isUefi : Bool)
    (root_size : ℚ) (encrypt : Bool) (password : Option String) (images : Images)
    (acc acc' : GenAcc) (f : FinalAnswer)
    (h : diskLoopStep sep isUefi root_size encrypt password images acc f = .ok acc') :
    acc'.ociImage = (toggleImage images f).getD acc.ociImage := by
  cases f with
  | disk cfg =>
      cases cfg with
      | auto d pv vg =>
          simp only [diskLoopStep] at h
          cases hplan : gen_auto_partition_steps isUefi d encrypt root_size pv vg password with
          | error e => rw [hplan] at h; simp at h
          | ok info =>
              rw [hplan] at h
              cases happ : applyPartInfo acc.recipe info with
              | error e => simp only [happ] at h; simp at h
              | ok rb =>
                  obtain ⟨r, bd⟩ := rb
                  simp only [happ] at h
                  injection h with h'
                  subst h'
                  rfl
      | manual parts =>
          simp only [diskLoopStep] at h
          cases hplan : gen_manual_partition_steps sep parts encrypt password with
          | error e => rw [hplan] at h; simp at h
          | ok info =>
              rw [hplan] at h
              cases happ : applyPartInfo acc.recipe info with
              | error e => simp only [happ] at h; simp at h
              | ok rb =>
                  obtain ⟨r, bd⟩ := rb
                  simp only [happ] at h
                  injection h with h'
                  subst h'
                  rfl
  | encryption u k => simp only [diskLoopStep] at h; injection h with h'; subst h'; rfl
  | timezone a b => simp only [diskLoopStep] at h; injection h with h'; subst h'; rfl
  | language v => simp only [diskLoopStep] at h; injection h with h'; subst h'; rfl
  | keyboard ls => simp only [diskLoopStep] at h; injection h with h'; subst h'; rfl
  | users a b c => simp only [diskLoopStep] at h; injection h with h'; subst h'; rfl
  | nvidia b =>
      simp only [diskLoopStep] at h
      injection h with h'
      subst h'
      cases b with
      | true => rfl
      | false => rfl
  | vm b =>
      simp only [diskLoopStep] at h
      injection h with h'
      subst h'
      cases b with
      | true => rfl
      | false => rfl

theorem diskLoop_oci (sep : String → String × String) (isUefi : Bool)
    (root_size : ℚ) (encrypt : Bool) (password : Option String) (images : Images)
    (finals : List FinalAnswer) (acc acc' : GenAcc)
    (h : diskLoop sep isUefi root_size encrypt password images acc finals = .ok acc') :
    acc'.ociImage = ((finals.filterMap (toggleImage images)).getLast?).getD acc.ociImage := by
  induction finals generalizing acc with
  | nil =>
      rw [diskLoop] at h
      injection h with h'
      subst h'
      rfl
  | cons f rest ih =>
      rw [diskLoop] at h
      cases hstep : diskLoopStep sep isUefi root_size encrypt password images acc f with
      | error e => rw [hstep] at h; simp at h
      | ok acc2 =>
          rw [hstep] at h
          have hstepoci := diskLoopStep_oci sep isUefi root_size encrypt password images
            acc acc2 f hstep
          have hih := ih acc2 h
          cases ht : toggleImage images f with
          | none =>
              rw [List.filterMap_cons_none ht]
              rw [hih, hstepoci, ht]
              rfl
          | some img =>
              rw [List.filterMap_cons_some ht]
              rw [getLastD_cons, hih, hstepoci, ht]
              rfl

theorem gen_cases (sep : String → String × String) (isUefi skip : Bool)
    (finals : List FinalAnswer) (sr : SysRecipe) (r : AlbiusRecipe)
    (h : gen_install_recipe sep isUefi skip finals sr = .ok r) :
    ∃ acc r2,
      diskLoop sep isUefi sr.default_root_size (encScan finals).1 (encScan finals).2
          sr.images ⟨AlbiusRecipe.new, sr.images.defaultImg, Option.none⟩ finals = .ok acc
      ∧ addCalls (acc.recipe.set_installation "oci" acc.ociImage)
          (postPhaseCalls (encScan finals).1 isUefi skip
            (find_partitions (acc.recipe.set_installation "oci" acc.ociImage).mountpoints)
            acc.bootDisk finals) = .ok r2
      ∧ r2.merge_postinstall_steps = .ok r := by
  simp only [gen_install_recipe] at h
  split at h
  · simp at h
  · split at h
    · simp at h
    · rename_i x0 accv heq1 x1 r2v heq2
      exact ⟨accv, r2v, heq1, heq2, h⟩

/-- C7 (amended): the chosen installation source is decided by the *last*
enabled nvidia/vm toggle in the finals list (the loop applies toggles in list
order, so the later answer wins, whichever it is); with no enabled toggle the
default image is used. -/
theorem c7_amended (sep : String → String × String) (isUefi skip : Bool)
    (finals : List FinalAnswer) (sr : SysRecipe)
    (hok : planOk (gen_install_recipe sep isUefi skip finals sr) = true) :
    recipeSource (gen_install_recipe sep isUefi skip finals sr)
      = some (((finals.filterMap (toggleImage sr.images)).getLast?).getD
          sr.images.defaultImg) := by
  cases hg : gen_install_recipe sep isUefi skip finals sr with
  | error e => rw [hg] at hok; simp [planOk] at hok
  | ok r =>
      obtain ⟨acc, r2, hdl, hac, hm⟩ := gen_cases _ _ _ _ _ _ hg
      have h3 := (merge_fields r2 r hm).2.2
      have h2 := (addCalls_fields _ _ _ hac).2.2
      have hoci := diskLoop_oci _ _ _ _ _ _ _ _ _ hdl
      simp [recipeSource, h3, h2, AlbiusRecipe.set_installation, hoci]

/-- Witness for C7 (amended): nvidia answered before vm, both enabled — the
later (vm) toggle wins. -/
theorem c7_witness :
    recipeSource (gen_install_recipe separate_device_and_partn false true
        [FinalAnswer.nvidia true, FinalAnswer.vm true] sr0) = some "img-vm" := by
  have h := c7_amended separate_device_and_partn false true
      [FinalAnswer.nvidia true, FinalAnswer.vm true] sr0 (by decide)
  rwa [show ((([FinalAnswer.nvidia true, FinalAnswer.vm true].filterMap
      (toggleImage sr0.images)).getLast?).getD sr0.images.defaultImg) = "img-vm"
      from by decide] at h

/-- C7 counterexample: with *both* toggles enabled but the vm answer listed
before the nvidia answer, the installation source is the nvidia image — not
the vm image the claim predicts. -/
theorem c7_counterexample :
    recipeSource (gen_install_recipe separate_device_and_partn false true
        [FinalAnswer.vm true, FinalAnswer.nvidia true] sr0) = some "img-nvidia"
    ∧ some sr0.images.vmImg ≠ some "img-nvidia" :=
  ⟨rfl, by decide⟩

theorem users_adduser_filter (sep : String → String × String) (isUefi : Bool)
    (sr : SysRecipe) (username fullname password : String) :
    ((recipePosts (gen_install_recipe sep isUefi false
        [FinalAnswer.users username fullname password] sr)).filter
      (fun s => s.operation == "adduser"))
      = [⟨true, "adduser",
          [.str "vanilla", .str "vanilla", .strList ["sudo", "lpadmin"], .str "vanilla"]⟩] := by
  simp only [gen_install_recipe]
  rw [show diskLoop sep isUefi sr.default_root_size
      (encScan [FinalAnswer.users username fullname password]).1
      (encScan [FinalAnswer.users username fullname password]).2 sr.images
      ⟨AlbiusRecipe.new, sr.images.defaultImg, Option.none⟩
      [FinalAnswer.users username fullname password]
      = .ok ⟨AlbiusRecipe.new, sr.images.defaultImg, Option.none⟩ from rfl]
  dsimp only
  rw [addCalls_ok _ _ [] rfl]
  simp only [AlbiusRecipe.merge_postinstall_steps, recipePosts]
  simp [postPhaseCalls, systemdUnitCalls, systemd_mount_unit_contents, skipBlockCalls,
    finalsCalls, tailCalls, adaptRootCall, abrootCfgCall, fstabCall, mkPost,
    List.filter_append, List.filter, AlbiusRecipe.set_installation, AlbiusRecipe.new]

/-- C4 counterexample: for the finals list `[users {alex, Alex, x}]` (with
post-install not skipped), the merged post-installation sequence contains
exactly one `adduser` step — the hard-coded default `vanilla` user — and no
step with the claimed parameters `["alex", "Alex", ["sudo","lpadmin"], "x"]`
exists: the `users` FinalAnswer is never read by `gen_install_recipe`. -/
theorem c4_counterexample :
    ((recipePosts (gen_install_recipe separate_device_and_partn false false
        [FinalAnswer.users "alex" "Alex" "x"] sr0)).filter
      (fun s => s.operation == "adduser"))
      = [⟨true, "adduser",
          [.str "vanilla", .str "vanilla", .strList ["sudo", "lpadmin"], .str "vanilla"]⟩]
    ∧ ¬ ((⟨true, "adduser",
          [.str "alex", .str "Alex", .strList ["sudo", "lpadmin"], .str "x"]⟩ : PostInstallStep)
        ∈ recipePosts (gen_install_recipe separate_device_and_partn false false
            [FinalAnswer.users "alex" "Alex" "x"] sr0)) := by
  have hf := users_adduser_filter separate_device_and_partn false sr0 "alex" "Alex" "x"
  refine ⟨hf, fun hmem => ?_⟩
  have hin : (⟨true, "adduser",
      [.str "alex", .str "Alex", .strList ["sudo", "lpadmin"], .str "x"]⟩ : PostInstallStep)
      ∈ (recipePosts (gen_install_recipe separate_device_and_partn false false
          [FinalAnswer.users "alex" "Alex" "x"] sr0)).filter
        (fun s => s.operation == "adduser") :=
    List.mem_filter.mpr ⟨hmem, by decide⟩
  rw [hf] at hin
  exact absurd (List.mem_singleton.mp hin) (by decide)

/-- C4 (amended): a lone `users` FinalAnswer contributes no post-install step
at all; with post-install not skipped, the only `adduser` step in the merged
sequence is the built-in default-user step
`{operation:"adduser", params:["vanilla","vanilla",["sudo","lpadmin"],"vanilla"], chroot:true}`,
independently of the supplied username, fullname and password. -/
theorem c4_amended (sep : String → String × String) (isUefi : Bool)
    (sr : SysRecipe) (username fullname password : String) :
    ((recipePosts (gen_install_recipe sep isUefi false
        [FinalAnswer.users username fullname password] sr)).filter
      (fun s => s.operation == "adduser"))
      = [⟨true, "adduser",
          [.str "vanilla", .str "vanilla", .strList ["sudo", "lpadmin"], .str "vanilla"]⟩] :=
  users_adduser_filter sep isUefi sr username fullname password

theorem diskLoop_nodisk (sep : String → String × String) (isUefi : Bool)
    (root_size : ℚ) (encrypt : Bool) (password : Option String) (images : Images)
    (finals : List FinalAnswer) (hnd : ∀ f ∈ finals, isDiskFinal f = false)
    (acc : GenAcc) :
    ∃ acc', diskLoop sep isUefi root_size encrypt password images acc finals = .ok acc'
      ∧ acc'.recipe = acc.recipe ∧ acc'.bootDisk = acc.bootDisk := by
  induction finals generalizing acc with
  | nil => exact ⟨acc, rfl, rfl, rfl⟩
  | cons f rest ih =>
      have hf := hnd f (List.mem_cons_self f rest)
      have hrest : ∀ g ∈ rest, isDiskFinal g = false :=
        fun g hg => hnd g (List.mem_cons_of_mem f hg)
      cases f with
      | disk cfg => simp [isDiskFinal] at hf
      | encryption u k =>
          obtain ⟨acc', h1, h2, h3⟩ := ih hrest acc
          exact ⟨acc', h1, h2, h3⟩
      | timezone a b =>
          obtain ⟨acc', h1, h2, h3⟩ := ih hrest acc
          exact ⟨acc', h1, h2, h3⟩
      | language v =>
          obtain ⟨acc', h1, h2, h3⟩ := ih hrest acc
          exact ⟨acc', h1, h2, h3⟩
      | keyboard ls =>
          obtain ⟨acc', h1, h2, h3⟩ := ih hrest acc
          exact ⟨acc', h1, h2, h3⟩
      | users a b c =>
          obtain ⟨acc', h1, h2, h3⟩ := ih hrest acc
          exact ⟨acc', h1, h2, h3⟩
      | nvidia b =>
          cases b with
          | true =>
              obtain ⟨acc', h1, h2, h3⟩ := ih hrest { acc with ociImage := images.nvidiaImg }
              exact ⟨acc', h1, h2, h3⟩
          | false =>
              obtain ⟨acc', h1, h2, h3⟩ := ih hrest acc
              exact ⟨acc', h1, h2, h3⟩
      | vm b =>
          cases b with
          | true =>
              obtain ⟨acc', h1, h2, h3⟩ := ih hrest { acc with ociImage := images.vmImg }
              exact ⟨acc', h1, h2, h3⟩
          | false =>
              obtain ⟨acc', h1, h2, h3⟩ := ih hrest acc
              exact ⟨acc', h1, h2, h3⟩

/-- C9: when the finals list contains no disk configuration at all,
`gen_install_recipe` still succeeds, with empty setup and mountpoint lists,
while the installation descriptor is set and post-install steps are present. -/
theorem c9_no_disk (sep : String → String × String) (isUefi skip : Bool)
    (finals : List FinalAnswer) (sr : SysRecipe)
    (hnd : ∀ f ∈ finals, isDiskFinal f = false) :
    planOk (gen_install_recipe sep isUefi skip finals sr) = true
    ∧ recipeSetup (gen_install_recipe sep isUefi skip finals sr) = []
    ∧ recipeMounts (gen_install_recipe sep isUefi skip finals sr) = []
    ∧ recipeSource (gen_install_recipe sep isUefi skip finals sr) ≠ Option.none
    ∧ recipePosts (gen_install_recipe sep isUefi skip finals sr) ≠ [] := by
  obtain ⟨acc, hdl, hrec, hbd⟩ := diskLoop_nodisk sep isUefi sr.default_root_size
      (encScan finals).1 (encScan finals).2 sr.images finals hnd
      ⟨AlbiusRecipe.new, sr.images.defaultImg, Option.none⟩
  have hlate : (acc.recipe.set_installation "oci" acc.ociImage).latePostInstallation
      = some [] := by
    simp [AlbiusRecipe.set_installation, hrec, AlbiusRecipe.new]
  simp only [gen_install_recipe]
  rw [hdl]
  dsimp only
  rw [addCalls_ok _ _ [] hlate]
  dsimp only
  simp only [AlbiusRecipe.merge_postinstall_steps]
  refine ⟨rfl, ?_, ?_, ?_, ?_⟩
  · simp [recipeSetup, AlbiusRecipe.set_installation, hrec, AlbiusRecipe.new]
  · simp [recipeMounts, AlbiusRecipe.set_installation, hrec, AlbiusRecipe.new]
  · simp [recipeSource, AlbiusRecipe.set_installation]
  · simp [recipePosts, AlbiusRecipe.set_installation, hrec, AlbiusRecipe.new,
      postPhaseCalls, systemdUnitCalls, systemd_mount_unit_contents, List.filter]

/-- Witness for C9 at the empty finals list. -/
theorem c9_witness :
    planOk (gen_install_recipe separate_device_and_partn false false [] sr0) = true
    ∧ recipeSetup (gen_install_recipe separate_device_and_partn false false [] sr0) = []
    ∧ recipeMounts (gen_install_recipe separate_device_and_partn false false [] sr0) = []
    ∧ recipeSource (gen_install_recipe separate_device_and_partn false false [] sr0)
        ≠ Option.none
    ∧ recipePosts (gen_install_recipe separate_device_and_partn false false [] sr0) ≠ [] :=
  c9_no_disk separate_device_and_partn false false [] sr0 (by simp)

theorem foldl_addSetup (steps : List SetupStep) (r : AlbiusRecipe) :
    (steps.foldl (fun r s => r.add_setup_step s.disk s.operation s.params) r).mountpoints
        = r.mountpoints
    ∧ (steps.foldl (fun r s => r.add_setup_step s.disk s.operation s.params) r).latePostInstallation
        = r.latePostInstallation := by
  induction steps generalizing r with
  | nil => exact ⟨rfl, rfl⟩
  | cons s rest ih => exact ih (r.add_setup_step s.disk s.operation s.params)

theorem foldl_addMount (mounts : List Mountpoint) (r : AlbiusRecipe) :
    (mounts.foldl (fun r m => r.add_mountpoint m.partition m.target) r).mountpoints
        = r.mountpoints ++ mounts
    ∧ (mounts.foldl (fun r m => r.add_mountpoint m.partition m.target) r).latePostInstallation
        = r.latePostInstallation := by
  induction mounts generalizing r with
  | nil => exact ⟨(List.append_nil _).symm, rfl⟩
  | cons m rest ih =>
      obtain ⟨h1, h2⟩ := ih (r.add_mountpoint m.partition m.target)
      constructor
      · rw [List.foldl_cons, h1]
        show (r.mountpoints ++ [m]) ++ rest = r.mountpoints ++ m :: rest
        rw [List.append_assoc]
        rfl
      · exact h2

theorem addPlannerPosts_ok (posts : List (String × List PyVal × Bool)) (r : AlbiusRecipe) :
    ∃ r', addPlannerPosts r posts = .ok r'
      ∧ r'.mountpoints = r.mountpoints
      ∧ r'.latePostInstallation = r.latePostInstallation := by
  induction posts generalizing r with
  | nil => exact ⟨r, rfl, rfl, rfl⟩
  | cons p rest ih =>
      obtain ⟨r', h1, h2, h3⟩ :=
        ih { r with postInstallation := r.postInstallation ++ [⟨p.2.2, p.1, p.2.1⟩] }
      exact ⟨r', h1, h2, h3⟩

theorem applyPartInfo_ok (r : AlbiusRecipe) (info : PartInfo) :
    ∃ rb, applyPartInfo r info = .ok (rb, info.2.2.2)
      ∧ rb.mountpoints = r.mountpoints ++ info.2.1
      ∧ rb.latePostInstallation = r.latePostInstallation := by
  obtain ⟨hm1, hl1⟩ := foldl_addSetup info.1 r
  obtain ⟨hm2, hl2⟩ := foldl_addMount info.2.1
      (info.1.foldl (fun r s => r.add_setup_step s.disk s.operation s.params) r)
  obtain ⟨r3, h3, hm3, hl3⟩ := addPlannerPosts_ok info.2.2.1
      (info.2.1.foldl (fun r m => r.add_mountpoint m.partition m.target)
        (info.1.foldl (fun r s => r.add_setup_step s.disk s.operation s.params) r))
  refine ⟨r3, ?_, ?_, ?_⟩
  · simp only [applyPartInfo]
    rw [h3]
  · rw [hm3, hm2, hm1]
  · rw [hl3, hl2, hl1]

theorem auto_rootMounts (isUefi : Bool) (disk : String) (encrypt : Bool)
    (root_size : ℚ) (pvs vgs : List String) (pw : Option String) (info : PartInfo)
    (h : gen_auto_partition_steps isUefi disk encrypt root_size pvs vgs pw = .ok info) :
    rootMounts info.2.1
      = [⟨"/dev/vos-root/root-a", "/"⟩, ⟨"/dev/vos-root/root-b", "/"⟩] := by
  cases encrypt with
  | false =>
      simp only [gen_auto_partition_steps, Bool.false_eq_true, if_false] at h
      injection h with h'
      subst h'
      cases isUefi with
      | false => rfl
      | true => rfl
  | true =>
      cases pw with
      | none => simp only [gen_auto_partition_steps, if_true] at h; simp at h
      | some p =>
          simp only [gen_auto_partition_steps, if_true] at h
          by_cases hp : (p == "") = true
          · rw [if_pos hp] at h; simp at h
          · rw [if_neg hp] at h
            injection h with h'
            subst h'
            cases isUefi with
            | false => rfl
            | true => rfl

theorem manualPartStep_rootMounts (sep : String → String × String) (enc : Bool)
    (pw : Option String) (acc acc' : ManualAcc) (pp : String × ManualPart)
    (h : manualPartStep sep enc pw acc pp = .ok acc') :
    rootMounts acc'.mounts = rootMounts acc.mounts
      ++ (if pp.2.mp == "/"
          then [⟨"/dev/vos-root/root-a", "/"⟩, ⟨"/dev/vos-root/root-b", "/"⟩]
          else []) := by
  simp only [manualPartStep] at h
  by_cases h1 : (pp.2.mp == "/") = true
  · rw [if_pos h1] at h
    injection h with h'
    subst h'
    rw [if_pos h1]
    simp [rootMounts, List.filter_append]
  · have h1' : (pp.2.mp == "/") = false := by simpa using h1
    rw [if_neg h1] at h
    rw [if_neg h1, List.append_nil]
    by_cases h2 : (pp.2.mp == "/boot") = true
    · rw [if_pos h2] at h
      simp only [setup_partition, Bool.false_eq_true, if_false] at h
      injection h with h'
      subst h'
      simp [rootMounts, List.filter_append, h1']
    · rw [if_neg h2] at h
      by_cases h3 : (pp.2.mp == "/boot/efi") = true
      · rw [if_pos h3] at h
        simp only [setup_partition, Bool.false_eq_true, if_false] at h
        injection h with h'
        subst h'
        simp [rootMounts, List.filter_append, h1']
      · rw [if_neg h3] at h
        by_cases h4 : (pp.2.mp == "/var") = true
        · rw [if_pos h4] at h
          cases enc with
          | false =>
              simp only [setup_partition, Bool.false_eq_true, if_false] at h
              injection h with h'
              subst h'
              simp [rootMounts, List.filter_append, h1']
          | true =>
              cases pw with
              | none => simp only [setup_partition, if_true] at h; simp at h
              | some p =>
                  simp only [setup_partition, if_true] at h
                  injection h with h'
                  subst h'
                  simp [rootMounts, List.filter_append, h1']
        · rw [if_neg h4] at h
          by_cases h5 : (pp.2.mp == "swap") = true
          · rw [if_pos h5] at h
            injection h with h'
            subst h'
            simp [rootMounts]
          · rw [if_neg h5] at h
            injection h with h'
            subst h'
            simp [rootMounts]

theorem manualLoop_rootMounts (sep : String → String × String) (enc : Bool)
    (pw : Option String) (parts : List (String × ManualPart)) (acc acc' : ManualAcc)
    (h : manualLoop sep enc pw acc parts = .ok acc') :
    rootMounts acc'.mounts = rootMounts acc.mounts
      ++ (parts.map (fun pp =>
          if pp.2.mp == "/"
          then [(⟨"/dev/vos-root/root-a", "/"⟩ : Mountpoint), ⟨"/dev/vos-root/root-b", "/"⟩]
          else [])).flatten := by
  induction parts generalizing acc with
  | nil =>
      rw [manualLoop] at h
      injection h with h'
      subst h'
      simp
  | cons pp rest ih =>
      rw [manualLoop] at h
      cases hstep : manualPartStep sep enc pw acc pp with
      | error e => rw [hstep] at h; simp at h
      | ok acc2 =>
          rw [hstep] at h
          rw [ih acc2 h, manualPartStep_rootMounts sep enc pw acc acc2 pp hstep,
            List.map_cons, List.flatten_cons, List.append_assoc]

theorem manual_rootMounts (sep : String → String × String)
    (parts : List (String × ManualPart)) (enc : Bool) (pw : Option String)
    (info : PartInfo)
    (h : gen_manual_partition_steps sep parts enc pw = .ok info) :
    rootMounts info.2.1
      = (parts.map (fun pp =>
          if pp.2.mp == "/"
          then [(⟨"/dev/vos-root/root-a", "/"⟩ : Mountpoint), ⟨"/dev/vos-root/root-b", "/"⟩]
          else [])).flatten := by
  simp only [gen_manual_partition_steps] at h
  cases hl : manualLoop sep enc pw
      ⟨((collectRemovals sep parts).1.map (removalStep "vgremove")).flatten
        ++ ((collectRemovals sep parts).2.map (removalStep "pvremove")).flatten,
       [], [], Option.none⟩ parts with
  | error e => rw [hl] at h; simp at h
  | ok acc =>
      rw [hl] at h
      injection h with h'
      subst h'
      have := manualLoop_rootMounts sep enc pw parts _ acc hl
      simpa [rootMounts] using this

theorem flatten_single_root (parts : List (String × ManualPart))
    (h : (parts.filter (fun pp => pp.2.mp == "/")).length = 1) :
    (parts.map (fun pp =>
        if pp.2.mp == "/"
        then [(⟨"/dev/vos-root/root-a", "/"⟩ : Mountpoint), ⟨"/dev/vos-root/root-b", "/"⟩]
        else [])).flatten
      = [⟨"/dev/vos-root/root-a", "/"⟩, ⟨"/dev/vos-root/root-b", "/"⟩] := by
  induction parts with
  | nil => simp at h
  | cons pp rest ih =>
      by_cases hc : (pp.2.mp == "/") = true
      · simp only [List.filter_cons, hc, if_true] at h
        have hz : (rest.filter (fun pp => pp.2.mp == "/")).length = 0 := by
          simpa using h
        have hnil : rest.filter (fun pp => pp.2.mp == "/") = [] :=
          List.length_eq_zero.mp hz
        rw [List.map_cons, List.flatten_cons, if_pos hc]
        have hflat : (rest.map (fun pp =>
            if pp.2.mp == "/"
            then [(⟨"/dev/vos-root/root-a", "/"⟩ : Mountpoint), ⟨"/dev/vos-root/root-b", "/"⟩]
            else [])).flatten = [] := by
          rw [List.flatten_eq_nil_iff]
          intro l hl
          obtain ⟨x, hx, rfl⟩ := List.mem_map.mp hl
          have : ¬ ((fun pp => pp.2.mp == "/") x = true) :=
            List.filter_eq_nil_iff.mp hnil x hx
          rw [if_neg this]
        rw [hflat, List.append_nil]
      · have hc' : (pp.2.mp == "/") = false := by simpa using hc
        simp only [List.filter_cons, hc', Bool.false_eq_true, if_false] at h
        rw [List.map_cons, List.flatten_cons, if_neg hc, List.nil_append]
        exact ih h

theorem diskLoopStep_disk (sep : String → String × String) (isUefi : Bool)
    (rs : ℚ) (enc : Bool) (pw : Option String) (images : Images)
    (acc acc' : GenAcc) (cfg : DiskConfig)
    (h : diskLoopStep sep isUefi rs enc pw images acc (.disk cfg) = .ok acc') :
    ∃ info, (match cfg with
        | DiskConfig.auto d pv vg => gen_auto_partition_steps isUefi d enc rs pv vg pw
        | DiskConfig.manual parts => gen_manual_partition_steps sep parts enc pw) = .ok info
      ∧ acc'.recipe.mountpoints = acc.recipe.mountpoints ++ info.2.1 := by
  cases cfg with
  | auto d pv vg =>
      simp only [diskLoopStep] at h
      cases hplan : gen_auto_partition_steps isUefi d enc rs pv vg pw with
      | error e => rw [hplan] at h; simp at h
      | ok info =>
          rw [hplan] at h
          obtain ⟨rb, happ, hm, _⟩ := applyPartInfo_ok acc.recipe info
          simp only [happ] at h
          injection h with h'
          subst h'
          exact ⟨info, hplan, hm⟩
  | manual parts =>
      simp only [diskLoopStep] at h
      cases hplan : gen_manual_partition_steps sep parts enc pw with
      | error e => rw [hplan] at h; simp at h
      | ok info =>
          rw [hplan] at h
          obtain ⟨rb, happ, hm, _⟩ := applyPartInfo_ok acc.recipe info
          simp only [happ] at h
          injection h with h'
          subst h'
          exact ⟨info, hplan, hm⟩

theorem diskLoop_single_disk (sep : String → String × String) (isUefi : Bool)
    (rs : ℚ) (enc : Bool) (pw : Option String) (images : Images)
    (pre post : List FinalAnswer) (cfg : DiskConfig) (acc acc' : GenAcc)
    (hpre : ∀ f ∈ pre, isDiskFinal f = false)
    (hpost : ∀ f ∈ post, isDiskFinal f = false)
    (h : diskLoop sep isUefi rs enc pw images acc
        (pre ++ FinalAnswer.disk cfg :: post) = .ok acc') :
    ∃ info, (match cfg with
        | DiskConfig.auto d pv vg => gen_auto_partition_steps isUefi d enc rs pv vg pw
        | DiskConfig.manual parts => gen_manual_partition_steps sep parts enc pw) = .ok info
      ∧ acc'.recipe.mountpoints = acc.recipe.mountpoints ++ info.2.1 := by
  induction pre generalizing acc with
  | nil =>
      rw [List.nil_append, diskLoop] at h
      cases hstep : diskLoopStep sep isUefi rs enc pw images acc (FinalAnswer.disk cfg) with
      | error e => rw [hstep] at h; simp at h
      | ok acc2 =>
          rw [hstep] at h
          dsimp only at h
          obtain ⟨info, hplan, hm⟩ :=
            diskLoopStep_disk sep isUefi rs enc pw images acc acc2 cfg hstep
          obtain ⟨acc3, heq, hr, _⟩ :=
            diskLoop_nodisk sep isUefi rs enc pw images post hpost acc2
          rw [heq] at h
          injection h with h'
          subst h'
          exact ⟨info, hplan, by rw [hr, hm]⟩
  | cons p pre' ih =>
      have hp := hpre p (List.mem_cons_self p pre')
      have hpre' : ∀ f ∈ pre', isDiskFinal f = false :=
        fun f hf => hpre f (List.mem_cons_of_mem p hf)
      rw [List.cons_append, diskLoop] at h
      cases hstep : diskLoopStep sep isUefi rs enc pw images acc p with
      | error e => rw [hstep] at h; simp at h
      | ok acc2 =>
          rw [hstep] at h
          have hrec : acc2.recipe = acc.recipe := by
            cases p with
            | disk cfg2 => simp [isDiskFinal] at hp
            | encryption u k =>
                simp only [diskLoopStep] at hstep
                injection hstep with h2
                subst h2
                rfl
            | timezone a b =>
                simp only [diskLoopStep] at hstep
                injection hstep with h2
                subst h2
                rfl
            | language v =>
                simp only [diskLoopStep] at hstep
                injection hstep with h2
                subst h2
                rfl
            | keyboard ls =>
                simp only [diskLoopStep] at hstep
                injection hstep with h2
                subst h2
                rfl
            | users a b c =>
                simp only [diskLoopStep] at hstep
                injection hstep with h2
                subst h2
                rfl
            | nvidia b =>
                simp only [diskLoopStep] at hstep
                injection hstep with h2
                subst h2
                cases b with
                | true => rfl
                | false => rfl
            | vm b =>
                simp only [diskLoopStep] at hstep
                injection hstep with h2
                subst h2
                cases b with
                | true => rfl
                | false => rfl
          obtain ⟨info, hplan, hm⟩ := ih acc2 hpre' h
          exact ⟨info, hplan, by rw [hm, hrec]⟩

theorem findStep_not_root (acc : FoundParts) (m : Mountpoint)
    (h : (m.target == "/") = false) :
    (findStep acc m).rootA = acc.rootA ∧ (findStep acc m).rootB = acc.rootB := by
  simp only [findStep]
  by_cases h1 : (m.target == "/boot") = true
  · rw [if_pos h1]; exact ⟨rfl, rfl⟩
  · rw [if_neg h1]
    by_cases h2 : (m.target == "/boot/efi") = true
    · rw [if_pos h2]; exact ⟨rfl, rfl⟩
    · rw [if_neg h2, if_neg (by simp [h])]
      by_cases h4 : (m.target == "/var") = true
      · rw [if_pos h4]; exact ⟨rfl, rfl⟩
      · rw [if_neg h4]; exact ⟨rfl, rfl⟩

theorem findFold_none (mounts : List Mountpoint) (acc : FoundParts)
    (h : rootMounts mounts = []) :
    (findFold mounts acc).rootA = acc.rootA ∧ (findFold mounts acc).rootB = acc.rootB := by
  induction mounts generalizing acc with
  | nil => exact ⟨rfl, rfl⟩
  | cons m rest ih =>
      simp only [rootMounts, List.filter_cons] at h
      by_cases hm : (m.target == "/") = true
      · rw [if_pos hm] at h; simp at h
      · have hm' : (m.target == "/") = false := by simpa using hm
        rw [if_neg hm] at h
        rw [findFold]
        obtain ⟨g1, g2⟩ := ih (findStep acc m) h
        obtain ⟨p1, p2⟩ := findStep_not_root acc m hm'
        exact ⟨g1.trans p1, g2.trans p2⟩

theorem findFold_one (mounts : List Mountpoint) (acc : FoundParts) (B : String)
    (h : rootMounts mounts = [⟨B, "/"⟩]) (hA : (acc.rootA == "") = false) :
    (findFold mounts acc).rootA = acc.rootA ∧ (findFold mounts acc).rootB = B := by
  induction mounts generalizing acc with
  | nil => simp [rootMounts] at h
  | cons m rest ih =>
      simp only [rootMounts, List.filter_cons] at h
      by_cases hm : (m.target == "/") = true
      · rw [if_pos hm] at h
        injection h with h1 h2
        rw [findFold]
        have ht : m.target = "/" := eq_of_beq hm
        have hstep : (findStep acc m).rootA = acc.rootA
            ∧ (findStep acc m).rootB = m.partition := by
          simp [findStep, ht, hA]
        obtain ⟨f1, f2⟩ := findFold_none rest (findStep acc m) h2
        have hmB : m.partition = B := by rw [h1]
        exact ⟨f1.trans hstep.1, f2.trans (hstep.2.trans hmB)⟩
      · have hm' : (m.target == "/") = false := by simpa using hm
        rw [if_neg hm] at h
        rw [findFold]
        obtain ⟨p1, p2⟩ := findStep_not_root acc m hm'
        have hA2 : ((findStep acc m).rootA == "") = false := by rw [p1]; exact hA
        obtain ⟨g1, g2⟩ := ih (findStep acc m) h hA2
        exact ⟨g1.trans p1, g2⟩

theorem findFold_two (mounts : List Mountpoint) (acc : FoundParts) (A B : String)
    (h : rootMounts mounts = [⟨A, "/"⟩, ⟨B, "/"⟩]) (hA0 : (acc.rootA == "") = true)
    (hAne : (A == "") = false) :
    (findFold mounts acc).rootA = A ∧ (findFold mounts acc).rootB = B := by
  induction mounts generalizing acc with
  | nil => simp [rootMounts] at h
  | cons m rest ih =>
      simp only [rootMounts, List.filter_cons] at h
      by_cases hm : (m.target == "/") = true
      · rw [if_pos hm] at h
        injection h with h1 h2
        rw [findFold]
        have ht : m.target = "/" := eq_of_beq hm
        have hstep : (findStep acc m).rootA = m.partition
            ∧ (findStep acc m).rootB = acc.rootB := by
          simp [findStep, ht, hA0]
        have hmA : m.partition = A := by rw [h1]
        have hA2 : ((findStep acc m).rootA == "") = false := by
          rw [hstep.1, hmA]; exact hAne
        obtain ⟨f1, f2⟩ := findFold_one rest (findStep acc m) B h2 hA2
        exact ⟨f1.trans (hstep.1.trans hmA), f2⟩
      · have hm' : (m.target == "/") = false := by simpa using hm
        rw [if_neg hm] at h
        rw [findFold]
        obtain ⟨p1, p2⟩ := findStep_not_root acc m hm'
        have hA2 : ((findStep acc m).rootA == "") = true := by rw [p1]; exact hA0
        exact ih (findStep acc m) h hA2

/-- C1 (amended): for every finals list containing exactly one disk
configuration — given as disk-free prefix/suffix around a single disk answer
that is auto, or manual with exactly one `/` entry — whenever planning
succeeds, the produced recipe contains exactly two mountpoints whose target
is `/`, in creation order `/dev/vos-root/root-a` before `/dev/vos-root/root-b`,
and `__find_partitions` consequently assigns the first to root-A and the
second to root-B. -/
theorem c1_amended (sep : String → String × String) (isUefi skip : Bool)
    (pre post : List FinalAnswer) (cfg : DiskConfig) (sr : SysRecipe)
    (hpre : ∀ f ∈ pre, isDiskFinal f = false)
    (hpost : ∀ f ∈ post, isDiskFinal f = false)
    (hcfg : match cfg with
      | DiskConfig.auto _ _ _ => True
      | DiskConfig.manual parts => (parts.filter (fun pp => pp.2.mp == "/")).length = 1)
    (hok : planOk (gen_install_recipe sep isUefi skip
        (pre ++ FinalAnswer.disk cfg :: post) sr) = true) :
    rootMounts (recipeMounts (gen_install_recipe sep isUefi skip
        (pre ++ FinalAnswer.disk cfg :: post) sr))
      = [⟨"/dev/vos-root/root-a", "/"⟩, ⟨"/dev/vos-root/root-b", "/"⟩]
    ∧ (find_partitions (recipeMounts (gen_install_recipe sep isUefi skip
        (pre ++ FinalAnswer.disk cfg :: post) sr))).rootA = "/dev/vos-root/root-a"
    ∧ (find_partitions (recipeMounts (gen_install_recipe sep isUefi skip
        (pre ++ FinalAnswer.disk cfg :: post) sr))).rootB = "/dev/vos-root/root-b" := by
  cases hg : gen_install_recipe sep isUefi skip (pre ++ FinalAnswer.disk cfg :: post) sr with
  | error e => rw [hg] at hok; simp [planOk] at hok
  | ok r =>
      obtain ⟨acc, r2, hdl, hac, hm⟩ := gen_cases _ _ _ _ _ _ hg
      obtain ⟨info, hplan, hmts⟩ :=
        diskLoop_single_disk _ _ _ _ _ _ pre post cfg _ _ hpre hpost hdl
      have e1 := (merge_fields r2 r hm).2.1
      have e2 := (addCalls_fields _ _ _ hac).2.1
      have hmounts : r.mountpoints = info.2.1 := (e1.trans e2).trans hmts
      have hroot : rootMounts info.2.1
          = [⟨"/dev/vos-root/root-a", "/"⟩, ⟨"/dev/vos-root/root-b", "/"⟩] := by
        cases cfg with
        | auto d pv vg => exact auto_rootMounts _ _ _ _ _ _ _ _ hplan
        | manual parts =>
            rw [manual_rootMounts _ _ _ _ _ hplan]
            exact flatten_single_root parts hcfg
      have hr : rootMounts (recipeMounts (Except.ok r))
          = [⟨"/dev/vos-root/root-a", "/"⟩, ⟨"/dev/vos-root/root-b", "/"⟩] := by
        show rootMounts r.mountpoints = _
        rw [hmounts, hroot]
      refine ⟨hr, ?_, ?_⟩
      · exact (findFold_two (recipeMounts (Except.ok r)) ⟨"", "", "", "", ""⟩
          "/dev/vos-root/root-a" "/dev/vos-root/root-b" hr rfl (by decide)).1
      · exact (findFold_two (recipeMounts (Except.ok r)) ⟨"", "", "", "", ""⟩
          "/dev/vos-root/root-a" "/dev/vos-root/root-b" hr rfl (by decide)).2

/-- C1 counterexample: a finals list containing a manual disk configuration
with two `/` entries (both partitions mounted at `/`) yields *four*
mountpoints targeting `/`, not exactly two. -/
theorem c1_counterexample :
    rootMounts (recipeMounts (gen_install_recipe separate_device_and_partn false true
        [FinalAnswer.disk (DiskConfig.manual c1parts)] sr0))
      = [⟨"/dev/vos-root/root-a", "/"⟩, ⟨"/dev/vos-root/root-b", "/"⟩,
         ⟨"/dev/vos-root/root-a", "/"⟩, ⟨"/dev/vos-root/root-b", "/"⟩] := by
  rfl

/-- Witness for C1 (amended) at a single auto disk configuration on `sda`. -/
theorem c1_witness :
    rootMounts (recipeMounts (gen_install_recipe separate_device_and_partn false true
        ([] ++ FinalAnswer.disk (DiskConfig.auto "sda" [] []) :: []) sr0))
      = [⟨"/dev/vos-root/root-a", "/"⟩, ⟨"/dev/vos-root/root-b", "/"⟩]
    ∧ (find_partitions (recipeMounts (gen_install_recipe separate_device_and_partn false true
        ([] ++ FinalAnswer.disk (DiskConfig.auto "sda" [] []) :: []) sr0))).rootA
        = "/dev/vos-root/root-a"
    ∧ (find_partitions (recipeMounts (gen_install_recipe separate_device_and_partn false true
        ([] ++ FinalAnswer.disk (DiskConfig.auto "sda" [] []) :: []) sr0))).rootB
        = "/dev/vos-root/root-b" :=
  c1_amended separate_device_and_partn false true [] []
    (DiskConfig.auto "sda" [] []) sr0 (by simp) (by simp) trivial (by decide)
